import Mathlib

/-!
# Verification of the tutorial output-capture pipeline

Shallow embedding of `scripts/generate-article-outputs.sh` and of the
sample TypeScript sources (`EventStore`, `UserService`) of the
`delivery-process-tutorials` repository, together with proofs of the
behavioural claims made by the repository's design specification.

The pipeline script manipulates a file system; we model the file system
as an association list from path strings to file contents, where a later
(leftmost) binding shadows earlier ones and directories are implicit in
the paths of the files they contain.
-/

namespace DP

/-- A file system: an association list from path to file content.
`getFile` returns the leftmost binding, so prepending shadows. -/
abbrev FS := List (String × String)

/-- Read a file (the leftmost binding for the path, if any). -/
def getFile (fs : FS) (p : String) : Option String :=
  (fs.find? (fun e => e.fst == p)).map (·.snd)

/-- Write a file: remove any old binding for the path and bind it anew
(`>` redirection truncates and rewrites). -/
def setFile (fs : FS) (p : String) (c : String) : FS :=
  (p, c) :: fs.filter (fun e => !(e.fst == p))

/-- `pathUnder d p` holds when path `p` lies at or below the prefix `d`
(`d` is expected to end in a slash for directories). -/
def pathUnder (d p : String) : Bool := d.data.isPrefixOf p.data

/-! ## The pipeline script `scripts/generate-article-outputs.sh`

All paths are relative to the project root (`PROJECT_DIR`); the script's
output directory is `OUT = scripts/outputs`. -/

/-- The output directory prefix (`$OUT/`). -/
def outDir : String := "scripts/outputs/"

/-- `$OUT/$cell.txt`: the capture file of one cell. -/
def outPath (cell : String) : String := outDir ++ (cell ++ ".txt")

/-- The result of executing one cell's command sequence with
`runme run <cell>`: the merged stdout+stderr byte stream and the exit
status of the command sequence. -/
structure CellResult where
  merged : String
  status : Nat

/-- `run_and_capture`: runs the cell, redirecting merged stdout/stderr
(`> "$OUT/$cell.txt" 2>&1`) into the capture file; `|| true` discards the
exit status, so the helper itself always returns status `0`. -/
def run_and_capture (r : CellResult) (cell : String) (fs : FS) : FS × Nat :=
  (setFile fs (outPath cell) r.merged, 0)

/-- Environment facts the script queries (`date -u`, `node --version`,
`npm --version`, `uname -s`, `uname -r`, and the resolved version of the
`@libar-dev/delivery-process` dependency, `none` when not installed). -/
structure EnvInfo where
  date : String
  nodeV : String
  npmV : String
  osName : String
  osRelease : String
  pkgVersion : Option String

/-- The `key: value` lines `capture_environment` echoes;
`2>/dev/null || echo 'unknown'` turns an unresolvable dependency version
into the sentinel `unknown`. -/
def envLines (e : EnvInfo) : List String :=
  ["date: " ++ e.date,
   "node: " ++ e.nodeV,
   "npm: " ++ e.npmV,
   "os: " ++ e.osName ++ " " ++ e.osRelease,
   "package: " ++ e.pkgVersion.getD "unknown"]

/-- The full text of `environment.txt` (each `echo` ends its line). -/
def envText (e : EnvInfo) : String :=
  String.intercalate "\n" (envLines e) ++ "\n"

/-- `$OUT/environment.txt`. -/
def envPath : String := outDir ++ "environment.txt"

/-- `capture_environment`: writes the environment record file. -/
def capture_environment (e : EnvInfo) (fs : FS) : FS :=
  setFile fs envPath (envText e)

/-- `$OUT/snapshots/`. -/
def snapRoot : String := "scripts/outputs/snapshots/"

/-- `$OUT/snapshots/$label/` — the directory of one snapshot. -/
def snapDir (label : String) : String := snapRoot ++ (label ++ "/")

/-- `[ -d d ]` in the file model: some file lives under the directory. -/
def dirExists (fs : FS) (d : String) : Bool := fs.any (fun e => pathUnder d e.fst)

/-- `cp -r srcPre dstPre`: every file under `srcPre` is copied to the
corresponding path under `dstPre`; copies shadow existing bindings. -/
def copyInto (fs : FS) (srcPre dstPre : String) : FS :=
  (fs.filterMap (fun e =>
    if pathUnder srcPre e.fst then
      some (dstPre ++ e.fst.drop srcPre.length, e.snd)
    else none)) ++ fs

/-- The housekeeping directories excluded from the `find` tree listing
(`-not -path './node_modules/*'` etc.). -/
def excludedB (p : String) : Bool :=
  pathUnder "node_modules/" p || pathUnder ".git/" p || pathUnder ".claude/" p ||
  pathUnder ".tutorial-snapshots/" p || pathUnder "scripts/outputs/" p ||
  pathUnder "vhs/output/" p

/-- Lexicographic (byte) order on character lists — the order `sort`
applies to lines. -/
def charListLe : List Char → List Char → Bool
  | [], _ => true
  | _ :: _, [] => false
  | a :: as, b :: bs =>
    if a.val.toNat = b.val.toNat then charListLe as bs
    else decide (a.val.toNat < b.val.toNat)

/-- Lexicographic order on strings. -/
def strLe (a b : String) : Bool := charListLe a.data b.data

/-- Insert into a `strLe`-sorted list, keeping it sorted. -/
def strOrderedInsert (a : String) : List String → List String
  | [] => [a]
  | b :: l => if strLe a b then a :: b :: l else b :: strOrderedInsert a l

/-- The `sort` utility, modelled as insertion sort by `strLe`. -/
def sortStrings : List String → List String
  | [] => []
  | a :: l => strOrderedInsert a (sortStrings l)

/-- `find . -type f -not -path ... | sort`: the paths of all files except
those under the excluded directories, sorted lexicographically. -/
def treeLines (fs : FS) : List String :=
  sortStrings (((fs.map Prod.fst).dedup).filter (fun p => !(excludedB p)))

/-- Rendering of the listing into `tree.txt`: one path per line. -/
def treeText (lines : List String) : String :=
  String.join (lines.map (· ++ "\n"))

/-- `if [ -d src ]; then cp -r src/ "$dir/src/"; fi` — a missing source
tree is skipped. -/
def snapCopySrc (dir : String) (fs : FS) : FS :=
  if dirExists fs "src/" then copyInto fs "src/" (dir ++ "src/") else fs

/-- `[ -f name ] && cp name "$dir/"` — a missing file is skipped (the
failing `[ -f ... ]` test inside a `&&` list does not trip `set -e`). -/
def snapCopyFile (dir name : String) (fs : FS) : FS :=
  match getFile fs name with
  | some c => setFile fs (dir ++ name) c
  | none => fs

/-- `if [ -d docs-generated ]; then cp -r ...; fi` — skipped if absent. -/
def snapCopyDocs (dir : String) (fs : FS) : FS :=
  if dirExists fs "docs-generated/" then
    copyInto fs "docs-generated/" (dir ++ "docs-generated/")
  else fs

/-- `snapshot_files`: copies `src/` (if present), the two config files
(guarded by `[ -f ... ] &&`), `package.json` (unguarded `cp` — under
`set -e` a missing manifest aborts the script, modelled as `none`), and
`docs-generated/` (if present) into the labelled snapshot directory, then
writes the sorted tree listing of the resulting state. -/
def snapshot_files (label : String) (fs : FS) : Option FS :=
  match getFile (snapCopyFile (snapDir label) "tsconfig.json"
      (snapCopyFile (snapDir label) "delivery-process.config.ts"
        (snapCopySrc (snapDir label) fs))) "package.json" with
  | none => none
  | some c =>
    let fs5 := snapCopyDocs (snapDir label)
      (setFile (snapCopyFile (snapDir label) "tsconfig.json"
          (snapCopyFile (snapDir label) "delivery-process.config.ts"
            (snapCopySrc (snapDir label) fs)))
        (snapDir label ++ "package.json") c)
    some (setFile fs5 (snapDir label ++ "tree.txt") (treeText (treeLines fs5)))

/-- One step of the orchestrator's fixed sequence. -/
inductive Step where
  | cell (name : String)
  | env
  | snap (label : String)
deriving DecidableEq, Repr

/-- The orchestration sequence of `generate-article-outputs.sh`,
transcribed top to bottom: Phase 0, then Parts 1–10, each Part's cells
followed by its `snapshot_files` call. -/
def pipelineSteps : List Step :=
  [.cell "reset-workspace", .cell "install-deps", .env, .snap "00-setup",
   .cell "verify-deps", .cell "create-tsconfig", .cell "create-folders",
   .cell "checkpoint-1", .snap "01-project-setup",
   .cell "create-config", .cell "add-npm-scripts", .cell "first-overview",
   .cell "checkpoint-2", .snap "02-configuration",
   .cell "create-user-service-v1", .cell "overview-after-first",
   .cell "sources-after-first", .snap "03-first-annotation",
   .cell "create-user-service-v2", .cell "tags-after-richness",
   .cell "overview-after-richness", .snap "04-richness",
   .cell "create-user-service-final", .cell "create-auth-handler",
   .cell "create-event-store", .cell "overview-with-deps",
   .cell "dep-tree-auth", .cell "arch-contexts", .cell "list-roadmap",
   .cell "checkpoint-5", .snap "05-relationships",
   .cell "gen-patterns", .cell "gen-roadmap", .cell "list-generated",
   .cell "checkpoint-6", .snap "06-doc-generation",
   .cell "create-user-reg-feature", .cell "create-auth-feature",
   .cell "query-rules", .cell "gen-business-rules",
   .cell "overview-after-gherkin", .cell "sources-after-gherkin",
   .cell "checkpoint-7", .snap "07-gherkin",
   .cell "create-notification-stub", .cell "query-stubs",
   .cell "checkpoint-8", .snap "08-stubs",
   .cell "gen-all", .cell "list-all-generated", .cell "add-reference-config",
   .cell "gen-reference", .cell "list-generators", .cell "lint-patterns",
   .cell "checkpoint-9", .snap "09-full-generation",
   .cell "arch-neighborhood", .cell "arch-blocking", .cell "arch-dangling",
   .cell "pattern-detail", .cell "count-roadmap", .cell "final-overview",
   .cell "final-verification", .snap "10-advanced"]

/-- The cell names a list of steps runs, in order. -/
def stepCells (steps : List Step) : List String :=
  steps.filterMap (fun st => match st with | .cell n => some n | _ => none)

/-- All cell names of the pipeline, in execution order. -/
def cellNames : List String := stepCells pipelineSteps

/-- The Parts of the tutorial after the Phase-0 setup: each has a label
and the cells run before its snapshot. -/
def partList : List (String × List String) :=
  [("01-project-setup",
    ["verify-deps", "create-tsconfig", "create-folders", "checkpoint-1"]),
   ("02-configuration",
    ["create-config", "add-npm-scripts", "first-overview", "checkpoint-2"]),
   ("03-first-annotation",
    ["create-user-service-v1", "overview-after-first", "sources-after-first"]),
   ("04-richness",
    ["create-user-service-v2", "tags-after-richness", "overview-after-richness"]),
   ("05-relationships",
    ["create-user-service-final", "create-auth-handler", "create-event-store",
     "overview-with-deps", "dep-tree-auth", "arch-contexts", "list-roadmap",
     "checkpoint-5"]),
   ("06-doc-generation",
    ["gen-patterns", "gen-roadmap", "list-generated", "checkpoint-6"]),
   ("07-gherkin",
    ["create-user-reg-feature", "create-auth-feature", "query-rules",
     "gen-business-rules", "overview-after-gherkin", "sources-after-gherkin",
     "checkpoint-7"]),
   ("08-stubs",
    ["create-notification-stub", "query-stubs", "checkpoint-8"]),
   ("09-full-generation",
    ["gen-all", "list-all-generated", "add-reference-config", "gen-reference",
     "list-generators", "lint-patterns", "checkpoint-9"]),
   ("10-advanced",
    ["arch-neighborhood", "arch-blocking", "arch-dangling", "pattern-detail",
     "count-roadmap", "final-overview", "final-verification"])]

/-- Execute one step of the script.  A cell run never fails
(`run_and_capture` swallows the status); a snapshot fails exactly when
the unguarded `cp package.json` does. -/
def runStep (res : String → CellResult) (ei : EnvInfo) : Step → FS → Option FS
  | .cell n, fs => some (run_and_capture (res n) n fs).1
  | .env, fs => some (capture_environment ei fs)
  | .snap l, fs => snapshot_files l fs

/-- Execute a sequence of steps, aborting on the first failure
(`set -euo pipefail`). -/
def runSteps (res : String → CellResult) (ei : EnvInfo) : List Step → FS → Option FS
  | [], fs => some fs
  | st :: rest, fs => (runStep res ei st fs).bind (runSteps res ei rest)

/-- `rm -rf "$OUT"` at the top of the script. -/
def cleanOutputs (fs : FS) : FS :=
  fs.filter (fun e => !(pathUnder "scripts/outputs/" e.fst))

/-- One full run of the script: clean previous outputs, then execute the
orchestration sequence. `none` means the script aborted. -/
def runPipeline (res : String → CellResult) (ei : EnvInfo) (fs : FS) : Option FS :=
  runSteps res ei pipelineSteps (cleanOutputs fs)

/-- The script's process exit code. -/
def exitCode (res : String → CellResult) (ei : EnvInfo) (fs : FS) : Nat :=
  match runPipeline res ei fs with
  | some _ => 0
  | none => 1

/-! ## The `reset-workspace` cell

Transcribed from the cell body in the tutorial notebook (kept in
`src/.tutorial-snapshots/01-v1-manual/src/specs/user-registration.feature`):
`rm -rf src/ docs-generated/ tsconfig.json delivery-process.config.ts`
followed by a heredoc that rewrites `package.json`. -/

/-- The literal minimal `package.json` the heredoc writes. -/
def manifestText : String :=
  "\x7b\n  \"name\": \"dp-mini-demo\",\n  \"version\": \"1.0.0\",\n" ++
  "  \"type\": \"module\",\n  \"private\": true,\n" ++
  "  \"dependencies\": \x7b\n    \"@libar-dev/delivery-process\": \"1.0.0-pre.0\"\n  \x7d,\n" ++
  "  \"devDependencies\": \x7b\n    \"typescript\": \"^5.7.0\",\n    \"tsx\": \"^4.19.0\"\n  \x7d\n\x7d\n"

/-- The top-level keys of that manifest, in order of appearance — note
there is no `scripts` key. -/
def manifestKeys : List String :=
  ["name", "version", "type", "private", "dependencies", "devDependencies"]

/-- The manifest's `dependencies` section. -/
def manifestDependencies : List (String × String) :=
  [("@libar-dev/delivery-process", "1.0.0-pre.0")]

/-- The manifest's `devDependencies` section. -/
def manifestDevDependencies : List (String × String) :=
  [("typescript", "^5.7.0"), ("tsx", "^4.19.0")]

/-- The `reset-workspace` cell: delete the generated paths, then rewrite
the manifest. -/
def resetWorkspaceCell (fs : FS) : FS :=
  setFile
    (fs.filter (fun e =>
      !(pathUnder "src/" e.fst) && !(pathUnder "docs-generated/" e.fst) &&
      !(e.fst == "tsconfig.json") && !(e.fst == "delivery-process.config.ts")))
    "package.json" manifestText

/-! ## `src/sample-sources/event-store.ts`

`EventStore` keeps `private events: DomainEvent[]`.  JavaScript arrays
are heap references, so we model a heap of arrays addressed by index;
the store holds the reference to its internal array.  `[...this.events]`
in `getAll` and `Array.prototype.filter` in `getByType` allocate fresh
arrays; `push` mutates the store's array in place. -/

/-- `DomainEvent` (`payload: unknown` becomes a type parameter). -/
structure DomainEvent (α : Type) where
  type : String
  payload : α
  timestamp : Nat
deriving DecidableEq

/-- The heap of event arrays, addressed by allocation index. -/
abbrev EvHeap (α : Type) : Type := List (List (DomainEvent α))

/-- The store: a reference to its internal `events` array. -/
structure EventStore where
  events : Nat
deriving DecidableEq

/-- Read an array from the heap. -/
def readRef {α : Type} (h : EvHeap α) (r : Nat) : List (DomainEvent α) :=
  List.getD h r []

/-- Overwrite an array in the heap (client-side mutation, or `push`). -/
def writeRef {α : Type} (h : EvHeap α) (r : Nat) (v : List (DomainEvent α)) :
    EvHeap α :=
  List.set h r v

/-- Allocate a fresh array holding `v`; returns the new heap and the
fresh reference. -/
def allocRef {α : Type} (h : EvHeap α) (v : List (DomainEvent α)) :
    EvHeap α × Nat :=
  (h ++ [v], h.length)

/-- `append(type, payload)`: pushes `{type, payload, timestamp: Date.now()}`
onto the store's array (`now` stands for `Date.now()`). -/
def EventStore.append {α : Type} (s : EventStore) (h : EvHeap α)
    (type : String) (payload : α) (now : Nat) : EvHeap α :=
  writeRef h s.events (readRef h s.events ++ [⟨type, payload, now⟩])

/-- `getAll()`: `return [...this.events]` — a fresh copy of the array. -/
def EventStore.getAll {α : Type} (s : EventStore) (h : EvHeap α) :
    EvHeap α × Nat :=
  allocRef h (readRef h s.events)

/-- `getByType(type)`: `this.events.filter((e) => e.type === type)` — a
fresh array holding the matching events. -/
def EventStore.getByType {α : Type} (s : EventStore) (h : EvHeap α)
    (t : String) : EvHeap α × Nat :=
  allocRef h ((readRef h s.events).filter (fun e => e.type == t))

/-! ## `UserService` (`src/sample-sources/user-service.ts`, final revision
also embedded in the `create-user-service-final` cell)

`private users = new Map<string, UserRecord>()` becomes an
insertion-ordered association list with unique keys: `Map.get` finds the
first binding, `Map.set` replaces an existing binding in place or appends
a new one.  `deactivate` mutates the found record's `active` flag in
place, which in the map view replaces that record by one with
`active := false`. -/

structure UserRecord where
  id : String
  email : String
  active : Bool
deriving DecidableEq

/-- `Map.get`. -/
def lookupUser : List (String × UserRecord) → String → Option UserRecord
  | [], _ => none
  | (k, v) :: rest, id => if k = id then some v else lookupUser rest id

/-- `Map.set`: replace the existing binding or append a new one. -/
def setUser : List (String × UserRecord) → String → UserRecord →
    List (String × UserRecord)
  | [], k, v => [(k, v)]
  | (k', v') :: rest, k, v =>
    if k' = k then (k, v) :: rest else (k', v') :: setUser rest k v

structure UserService where
  users : List (String × UserRecord)
deriving DecidableEq

/-- `register(email)`: the fresh `crypto.randomUUID()` value is supplied
as the `uuid` argument; stores `{id, email, active: true}`, returns the id. -/
def UserService.register (s : UserService) (uuid email : String) :
    UserService × String :=
  ({ users := setUser s.users uuid ⟨uuid, email, true⟩ }, uuid)

/-- `findById(id)`: `this.users.get(id) ?? null`. -/
def UserService.findById (s : UserService) (id : String) : Option UserRecord :=
  lookupUser s.users id

/-- `deactivate(id)`: return `false` if the user is absent; otherwise set
the found record's `active` flag to `false` and return `true`. -/
def UserService.deactivate (s : UserService) (id : String) :
    UserService × Bool :=
  match lookupUser s.users id with
  | none => (s, false)
  | some u => ({ users := setUser s.users id ⟨u.id, u.email, false⟩ }, true)

theorem pathUnder_iff {d p : String} : pathUnder d p = true ↔ d.data <+: p.data :=
  List.isPrefixOf_iff_prefix

/-- Strings with equal character data are equal. -/
theorem str_ext {a b : String} (h : a.data = b.data) : a = b := by
  cases a; cases b; exact congrArg String.mk h

theorem str_append_assoc (a b c : String) : (a ++ b) ++ c = a ++ (b ++ c) := by
  apply str_ext
  simp [String.data_append, List.append_assoc]

theorem str_append_left_cancel {t a b : String} (h : t ++ a = t ++ b) : a = b := by
  apply str_ext
  have hd := congrArg String.data h
  rw [String.data_append, String.data_append] at hd
  exact List.append_cancel_left hd

theorem str_append_right_cancel {a b t : String} (h : a ++ t = b ++ t) : a = b := by
  apply str_ext
  have hd := congrArg String.data h
  rw [String.data_append, String.data_append] at hd
  exact List.append_cancel_right hd

/-- A string extending `a` cannot equal a string `b` whose first character
differs from `a`'s. -/
theorem str_app_ne (a x b : String) (c₁ c₂ : Char) (ta tb : List Char)
    (ha : a.data = c₁ :: ta) (hb : b.data = c₂ :: tb) (hc : c₁ ≠ c₂) :
    a ++ x ≠ b := by
  intro he
  have hd := congrArg String.data he
  rw [String.data_append, ha, hb, List.cons_append] at hd
  injection hd with h1 _
  exact hc h1

/-- Two strings extending prefixes with clashing first characters differ. -/
theorem str_app_ne_app (a x b y : String) (c₁ c₂ : Char) (ta tb : List Char)
    (ha : a.data = c₁ :: ta) (hb : b.data = c₂ :: tb) (hc : c₁ ≠ c₂) :
    a ++ x ≠ b ++ y := by
  intro he
  have hd := congrArg String.data he
  rw [String.data_append, String.data_append, ha, hb,
    List.cons_append, List.cons_append] at hd
  injection hd with h1 _
  exact hc h1

theorem pathUnder_append (d t : String) : pathUnder d (d ++ t) = true := by
  rw [pathUnder_iff, String.data_append]
  exact List.prefix_append _ _

theorem eq_append_of_pathUnder {d p : String} (h : pathUnder d p = true) :
    ∃ t, p = d ++ t := by
  rw [pathUnder_iff] at h
  obtain ⟨t, ht⟩ := h
  refine ⟨⟨t⟩, ?_⟩
  apply str_ext
  rw [String.data_append, ← ht]

theorem ne_of_pathUnder {d p q : String} (hp : pathUnder d p = true)
    (hq : pathUnder d q = false) : p ≠ q := by
  intro h
  rw [h, hq] at hp
  cases hp

theorem getFile_setFile_self (fs : FS) (p c : String) :
    getFile (setFile fs p c) p = some c := by
  simp [getFile, setFile, List.find?]

theorem find?_filter_ne (l : FS) (p q : String) (h : q ≠ p) :
    List.find? (fun e => e.fst == q) (l.filter (fun e => !(e.fst == p))) =
    List.find? (fun e => e.fst == q) l := by
  induction l with
  | nil => rfl
  | cons e rest ih =>
    by_cases hep : e.fst = p
    · rw [List.filter_cons_of_neg (by simp [hep]),
        List.find?_cons_of_neg _ (by simp [hep]; exact fun hh => h hh.symm)]
      exact ih
    · rw [List.filter_cons_of_pos (by simp [hep])]
      by_cases heq : e.fst = q
      · rw [List.find?_cons_of_pos _ (by simp [heq]), List.find?_cons_of_pos _ (by simp [heq])]
      · rw [List.find?_cons_of_neg _ (by simp [heq]), List.find?_cons_of_neg _ (by simp [heq])]
        exact ih

theorem getFile_setFile_ne (fs : FS) (p c q : String) (h : q ≠ p) :
    getFile (setFile fs p c) q = getFile fs q := by
  unfold getFile setFile
  rw [List.find?_cons_of_neg _ (by simp; exact fun hh => h hh.symm),
    find?_filter_ne fs p q h]

theorem getFile_append_of_none {l₁ l₂ : FS} {p : String}
    (h : ∀ e ∈ l₁, e.fst ≠ p) : getFile (l₁ ++ l₂) p = getFile l₂ p := by
  induction l₁ with
  | nil => rfl
  | cons e rest ih =>
    rw [List.cons_append]
    unfold getFile
    rw [List.find?_cons_of_neg _ (by simp [h e (List.mem_cons_self e rest)])]
    exact ih (fun e' he' => h e' (List.mem_cons_of_mem e he'))

/-! ### Where each step writes -/

theorem pathUnder_mono {a b p : String} (hab : pathUnder a b = true)
    (hbp : pathUnder b p = true) : pathUnder a p = true :=
  pathUnder_iff.mpr ((pathUnder_iff.mp hab).trans (pathUnder_iff.mp hbp))

theorem pathUnder_out_outPath (c : String) :
    pathUnder "scripts/outputs/" (outPath c) = true :=
  pathUnder_append outDir (c ++ ".txt")

theorem pathUnder_out_envPath : pathUnder "scripts/outputs/" envPath = true :=
  pathUnder_append outDir "environment.txt"

theorem pathUnder_snapDir_app (label t : String) :
    pathUnder snapRoot (snapDir label ++ t) = true :=
  pathUnder_mono (pathUnder_append snapRoot (label ++ "/")) (pathUnder_append _ t)

theorem pathUnder_snapDir_app2 (label s x : String) :
    pathUnder snapRoot ((snapDir label ++ s) ++ x) = true :=
  pathUnder_mono (pathUnder_snapDir_app label s) (pathUnder_append _ x)

theorem snapDir_app_ne {label t p : String} (hp : pathUnder snapRoot p = false) :
    snapDir label ++ t ≠ p :=
  ne_of_pathUnder (pathUnder_snapDir_app label t) hp

theorem snapDir_app2_ne {label s x p : String} (hp : pathUnder snapRoot p = false) :
    (snapDir label ++ s) ++ x ≠ p :=
  ne_of_pathUnder (pathUnder_snapDir_app2 label s x) hp

theorem outPath_ne_pkg (c : String) : outPath c ≠ "package.json" :=
  ne_of_pathUnder (pathUnder_out_outPath c) (by decide)

/-! ### Frame lemmas for the snapshot stages -/

theorem copyInto_getFile {fs : FS} {srcPre dstPre p : String}
    (h : ∀ x, dstPre ++ x ≠ p) :
    getFile (copyInto fs srcPre dstPre) p = getFile fs p := by
  unfold copyInto
  apply getFile_append_of_none
  intro e he
  obtain ⟨a, _, hae⟩ := List.mem_filterMap.mp he
  by_cases hu : pathUnder srcPre a.fst = true
  · rw [if_pos hu] at hae
    cases hae
    exact h _
  · rw [if_neg hu] at hae
    cases hae

theorem snapCopySrc_getFile {dir fs p}
    (hp : ∀ x, (dir ++ "src/") ++ x ≠ p) :
    getFile (snapCopySrc dir fs) p = getFile fs p := by
  unfold snapCopySrc
  split
  · exact copyInto_getFile hp
  · rfl

theorem snapCopyFile_getFile {dir name fs p} (hp : dir ++ name ≠ p) :
    getFile (snapCopyFile dir name fs) p = getFile fs p := by
  unfold snapCopyFile
  split
  · exact getFile_setFile_ne _ _ _ _ (Ne.symm hp)
  · rfl

theorem snapCopyDocs_getFile {dir fs p}
    (hp : ∀ x, (dir ++ "docs-generated/") ++ x ≠ p) :
    getFile (snapCopyDocs dir fs) p = getFile fs p := by
  unfold snapCopyDocs
  split
  · exact copyInto_getFile hp
  · rfl

theorem snapCopySrc_of_false {dir : String} {fs : FS}
    (h : dirExists fs "src/" = false) : snapCopySrc dir fs = fs := by
  unfold snapCopySrc
  rw [h]
  simp

theorem snapCopyFile_of_none {dir name : String} {fs : FS}
    (h : getFile fs name = none) : snapCopyFile dir name fs = fs := by
  unfold snapCopyFile
  rw [h]

theorem snapCopyDocs_of_false {dir : String} {fs : FS}
    (h : dirExists fs "docs-generated/" = false) : snapCopyDocs dir fs = fs := by
  unfold snapCopyDocs
  rw [h]
  simp

/-- Everything `snapshot_files` writes lies under `scripts/outputs/snapshots/`:
any other path reads the same before and after a successful snapshot. -/
theorem snapshot_files_preserves {label : String} {fs fs' : FS} {p : String}
    (h : snapshot_files label fs = some fs') (hp : pathUnder snapRoot p = false) :
    getFile fs' p = getFile fs p := by
  simp only [snapshot_files] at h
  split at h
  · cases h
  · cases h
    rw [getFile_setFile_ne _ _ _ _ (Ne.symm (snapDir_app_ne hp)),
      snapCopyDocs_getFile (fun x => snapDir_app2_ne hp),
      getFile_setFile_ne _ _ _ _ (Ne.symm (snapDir_app_ne hp)),
      snapCopyFile_getFile (snapDir_app_ne hp),
      snapCopyFile_getFile (snapDir_app_ne hp),
      snapCopySrc_getFile (fun x => snapDir_app2_ne hp)]

/-- When the package manifest exists, the unguarded `cp package.json`
succeeds and so does the whole snapshot. -/
theorem snapshot_files_pkg (label : String) {fs : FS} {m : String}
    (hm : getFile fs "package.json" = some m) :
    ∃ fs', snapshot_files label fs = some fs' := by
  have hnp : pathUnder snapRoot "package.json" = false := by decide
  have h3 : getFile (snapCopyFile (snapDir label) "tsconfig.json"
      (snapCopyFile (snapDir label) "delivery-process.config.ts"
        (snapCopySrc (snapDir label) fs))) "package.json" = some m := by
    rw [snapCopyFile_getFile (snapDir_app_ne hnp),
      snapCopyFile_getFile (snapDir_app_ne hnp),
      snapCopySrc_getFile (fun x => snapDir_app2_ne hnp)]
    exact hm
  simp only [snapshot_files, h3]
  exact ⟨_, rfl⟩

/-! ### Frame lemmas for whole step sequences -/

theorem find?_filter_of (l : FS) (f : (String × String) → Bool) (q : String)
    (h : ∀ e : String × String, e.fst = q → f e = true) :
    List.find? (fun e => e.fst == q) (l.filter f) =
    List.find? (fun e => e.fst == q) l := by
  induction l with
  | nil => rfl
  | cons e rest ih =>
    by_cases heq : e.fst = q
    · rw [List.filter_cons_of_pos (h e heq), List.find?_cons_of_pos _ (by simp [heq]),
        List.find?_cons_of_pos _ (by simp [heq])]
    · by_cases hf : f e = true
      · rw [List.filter_cons_of_pos hf, List.find?_cons_of_neg _ (by simp [heq]),
          List.find?_cons_of_neg _ (by simp [heq]), ih]
      · rw [List.filter_cons_of_neg hf, List.find?_cons_of_neg _ (by simp [heq]), ih]

theorem getFile_cleanOutputs {fs : FS} {p : String}
    (hp : pathUnder "scripts/outputs/" p = false) :
    getFile (cleanOutputs fs) p = getFile fs p := by
  unfold cleanOutputs getFile
  rw [find?_filter_of]
  intro e he
  simp [he, hp]

/-- Running any step sequence from a state with a package manifest
succeeds, and a path that is not a cell capture file of the sequence, not
`environment.txt`, and not inside the snapshot area keeps its content. -/
theorem runSteps_preserves (res : String → CellResult) (ei : EnvInfo) {p : String}
    (hsnap : pathUnder snapRoot p = false) (henv : envPath ≠ p) :
    ∀ (steps : List Step) (fs : FS) (m : String),
      getFile fs "package.json" = some m →
      (∀ n, Step.cell n ∈ steps → outPath n ≠ p) →
      ∃ fs', runSteps res ei steps fs = some fs' ∧
        getFile fs' p = getFile fs p ∧ getFile fs' "package.json" = some m := by
  intro steps
  induction steps with
  | nil => exact fun fs m hm _ => ⟨fs, rfl, rfl, hm⟩
  | cons st rest ih =>
    intro fs m hm hcell
    cases st with
    | cell n =>
      have hpkg : getFile (setFile fs (outPath n) (res n).merged) "package.json"
          = some m := by
        rw [getFile_setFile_ne _ _ _ _ (Ne.symm (outPath_ne_pkg n))]
        exact hm
      obtain ⟨fs', h1, h2, h3⟩ :=
        ih _ m hpkg (fun n' hn' => hcell n' (List.mem_cons_of_mem _ hn'))
      refine ⟨fs', ?_, ?_, h3⟩
      · simpa [runSteps, runStep, run_and_capture] using h1
      · rw [h2, getFile_setFile_ne _ _ _ _
          (Ne.symm (hcell n (List.mem_cons_self _ _)))]
    | env =>
      have hpkg : getFile (capture_environment ei fs) "package.json" = some m := by
        unfold capture_environment
        rw [getFile_setFile_ne _ _ _ _
          (Ne.symm (ne_of_pathUnder pathUnder_out_envPath (by decide)))]
        exact hm
      obtain ⟨fs', h1, h2, h3⟩ :=
        ih _ m hpkg (fun n' hn' => hcell n' (List.mem_cons_of_mem _ hn'))
      refine ⟨fs', ?_, ?_, h3⟩
      · simpa [runSteps, runStep] using h1
      · rw [h2]
        unfold capture_environment
        rw [getFile_setFile_ne _ _ _ _ (Ne.symm henv)]
    | snap l =>
      obtain ⟨fsS, hS⟩ := snapshot_files_pkg l hm
      have hpkg : getFile fsS "package.json" = some m := by
        rw [snapshot_files_preserves hS (by decide)]
        exact hm
      obtain ⟨fs', h1, h2, h3⟩ :=
        ih fsS m hpkg (fun n' hn' => hcell n' (List.mem_cons_of_mem _ hn'))
      refine ⟨fs', ?_, ?_, h3⟩
      · simp only [runSteps, runStep, hS, Option.bind_some]
        exact h1
      · rw [h2, snapshot_files_preserves hS hsnap]

theorem outPath_inj {a b : String} (h : outPath a = outPath b) : a = b := by
  unfold outPath at h
  exact str_append_right_cancel (str_append_left_cancel h)

theorem mem_stepCells {n : String} {steps : List Step}
    (h : Step.cell n ∈ steps) : n ∈ stepCells steps := by
  unfold stepCells
  exact List.mem_filterMap.mpr ⟨Step.cell n, h, rfl⟩

/-- Lifting of `runSteps_preserves` to a sequence that contains the cell
`c` exactly once: after the sequence, `c`'s capture file holds exactly
`c`'s merged output. -/
theorem runSteps_captures (res : String → CellResult) (ei : EnvInfo) {c : String}
    (hsnap : pathUnder snapRoot (outPath c) = false)
    (henv : envPath ≠ outPath c) :
    ∀ (steps : List Step) (fs : FS) (m : String),
      getFile fs "package.json" = some m →
      Step.cell c ∈ steps → (stepCells steps).Nodup →
      ∃ fs', runSteps res ei steps fs = some fs' ∧
        getFile fs' (outPath c) = some (res c).merged := by
  intro steps
  induction steps with
  | nil => exact fun fs m _ hc _ => absurd hc (List.not_mem_nil _)
  | cons st rest ih =>
    intro fs m hm hc hnd
    cases st with
    | cell n =>
      have hpkg : getFile (setFile fs (outPath n) (res n).merged) "package.json"
          = some m := by
        rw [getFile_setFile_ne _ _ _ _ (Ne.symm (outPath_ne_pkg n))]
        exact hm
      have hnd' : n ∉ stepCells rest ∧ (stepCells rest).Nodup := by
        have : stepCells (Step.cell n :: rest) = n :: stepCells rest := rfl
        rw [this] at hnd
        exact List.nodup_cons.mp hnd
      by_cases hcn : n = c
      · subst hcn
        have hnotin : ∀ n', Step.cell n' ∈ rest → outPath n' ≠ outPath n := by
          intro n' hn' he
          exact hnd'.1 (outPath_inj he ▸ mem_stepCells hn')
        obtain ⟨fs', h1, h2, _⟩ :=
          runSteps_preserves res ei hsnap henv rest _ m hpkg hnotin
        refine ⟨fs', ?_, ?_⟩
        · simpa [runSteps, runStep, run_and_capture] using h1
        · rw [h2, getFile_setFile_self]
      · have hcrest : Step.cell c ∈ rest := by
          rcases List.mem_cons.mp hc with h | h
          · cases h
            exact absurd rfl hcn
          · exact h
        obtain ⟨fs', h1, h2⟩ := ih _ m hpkg hcrest hnd'.2
        exact ⟨fs', by simpa [runSteps, runStep, run_and_capture] using h1, h2⟩
    | env =>
      have hpkg : getFile (capture_environment ei fs) "package.json" = some m := by
        unfold capture_environment
        rw [getFile_setFile_ne _ _ _ _
          (Ne.symm (ne_of_pathUnder pathUnder_out_envPath (by decide)))]
        exact hm
      have hcrest : Step.cell c ∈ rest := by
        rcases List.mem_cons.mp hc with h | h
        · cases h
        · exact h
      obtain ⟨fs', h1, h2⟩ := ih _ m hpkg hcrest hnd
      exact ⟨fs', by simpa [runSteps, runStep] using h1, h2⟩
    | snap l =>
      obtain ⟨fsS, hS⟩ := snapshot_files_pkg l hm
      have hpkg : getFile fsS "package.json" = some m := by
        rw [snapshot_files_preserves hS (by decide)]
        exact hm
      have hcrest : Step.cell c ∈ rest := by
        rcases List.mem_cons.mp hc with h | h
        · cases h
        · exact h
      obtain ⟨fs', h1, h2⟩ := ih _ m hpkg hcrest hnd
      refine ⟨fs', ?_, h2⟩
      simp only [runSteps, runStep, hS, Option.bind_some]
      exact h1

/-- C1.  For every run of the pipeline script started from a project root
that has a `package.json` (as every tutorial workspace does), the process
exit code is `0` regardless of the exit statuses of the individual cells'
command sequences — `run_and_capture`'s `|| true` swallows every cell
failure, including a failure of the `reset-workspace` cell itself.
Consequently the exit code is `0` on normal completion even when cells
fail, and "non-zero only if Workspace Reset fails" holds (vacuously: in
the modelled runs the exit code is never non-zero, because even the
reset-workspace cell is run through `run_and_capture`). -/
theorem pipeline_exit_zero (res : String → CellResult) (ei : EnvInfo) (fs : FS)
    (m : String) (hm : getFile fs "package.json" = some m) :
    exitCode res ei fs = 0 ∧
    (exitCode res ei fs ≠ 0 → (res "reset-workspace").status ≠ 0) := by
  have hclean : getFile (cleanOutputs fs) "package.json" = some m := by
    rw [getFile_cleanOutputs (by decide)]
    exact hm
  obtain ⟨fs', h1, _, _⟩ :=
    runSteps_preserves res ei (p := "package.json") (by decide)
      (ne_of_pathUnder pathUnder_out_envPath (by decide))
      pipelineSteps (cleanOutputs fs) m hclean (fun n _ => outPath_ne_pkg n)
  have hz : exitCode res ei fs = 0 := by
    unfold exitCode runPipeline
    rw [h1]
  exact ⟨hz, fun hne => absurd hz hne⟩

/-- Witness for C1: a concrete workspace in which every cell — including
`reset-workspace` — exits with status 127, yet the script exits 0. -/
theorem pipeline_exit_zero_witness :
    exitCode (fun _ => ⟨"runme: command not found", 127⟩)
      ⟨"2026-02-21", "v22.17.1", "11.6.1", "Darwin", "25.2.0", none⟩
      [("package.json", "manifest")] = 0 :=
  (pipeline_exit_zero (fun _ => ⟨"runme: command not found", 127⟩)
    ⟨"2026-02-21", "v22.17.1", "11.6.1", "Darwin", "25.2.0", none⟩
    [("package.json", "manifest")] "manifest" (by decide)).1

/-- C2.  The Step Runner returns normally (helper status `0`, thanks to
`|| true`) no matter what status the cell's command sequence reported,
writes the merged stdout+stderr stream verbatim to `$OUT/<cell>.txt`, and
touches no other file — so exactly one output file is produced. -/
theorem run_and_capture_spec (fs : FS) (cell : String) (r : CellResult) :
    (run_and_capture r cell fs).2 = 0 ∧
    getFile (run_and_capture r cell fs).1 (outPath cell) = some r.merged ∧
    ∀ p, p ≠ outPath cell →
      getFile (run_and_capture r cell fs).1 p = getFile fs p :=
  ⟨rfl, getFile_setFile_self _ _ _, fun _ hp => getFile_setFile_ne _ _ _ _ hp⟩

/-- Witness for C2 at a failing concrete cell. -/
theorem run_and_capture_spec_witness :
    (run_and_capture ⟨"line1\nerror: boom\n", 2⟩ "first-overview" []).2 = 0 ∧
    getFile (run_and_capture ⟨"line1\nerror: boom\n", 2⟩ "first-overview" []).1
      (outPath "first-overview") = some "line1\nerror: boom\n" ∧
    getFile (run_and_capture ⟨"line1\nerror: boom\n", 2⟩ "first-overview" []).1
      "package.json" = getFile [] "package.json" :=
  ⟨(run_and_capture_spec [] "first-overview" ⟨"line1\nerror: boom\n", 2⟩).1,
   (run_and_capture_spec [] "first-overview" ⟨"line1\nerror: boom\n", 2⟩).2.1,
   (run_and_capture_spec [] "first-overview" ⟨"line1\nerror: boom\n", 2⟩).2.2
     "package.json" (by decide)⟩

/-- C8.  One full pipeline run produces, for every cell of the sequence,
exactly one capture file whose content is that run's merged output for
the cell — independent of whatever the starting file system contained at
that path (a rerun therefore overwrites, never appends: the result
content is `res c` alone, not old content followed by new). -/
theorem pipeline_capture_unique (res : String → CellResult) (ei : EnvInfo)
    (fs : FS) (m c : String) (hm : getFile fs "package.json" = some m)
    (hc : Step.cell c ∈ pipelineSteps) :
    ∃ fs', runPipeline res ei fs = some fs' ∧
      getFile fs' (outPath c) = some (res c).merged := by
  have hcn : c ∈ cellNames := mem_stepCells hc
  have hsnapAll : ∀ x ∈ cellNames, pathUnder snapRoot (outPath x) = false := by decide
  have henvAll : ∀ x ∈ cellNames, envPath ≠ outPath x := by decide
  have hnd : (stepCells pipelineSteps).Nodup := by decide
  have hclean : getFile (cleanOutputs fs) "package.json" = some m := by
    rw [getFile_cleanOutputs (by decide)]
    exact hm
  exact runSteps_captures res ei (hsnapAll c hcn) (henvAll c hcn)
    pipelineSteps _ m hclean hc hnd

/-- Witness for C8: concrete run, concrete cell; the capture file of
`install-deps` holds this run's output, even though the starting file
system already contained stale content at that path (the rerun case). -/
theorem pipeline_capture_unique_witness :
    ∃ fs', runPipeline (fun _ => ⟨"fresh output", 1⟩)
        ⟨"2026-02-21", "v22", "11", "Linux", "6.1", some "1.0.0-pre.0"⟩
        [(outPath "install-deps", "stale output"), ("package.json", "manifest")]
        = some fs' ∧
      getFile fs' (outPath "install-deps") = some "fresh output" :=
  pipeline_capture_unique (fun _ => ⟨"fresh output", 1⟩)
    ⟨"2026-02-21", "v22", "11", "Linux", "6.1", some "1.0.0-pre.0"⟩
    [(outPath "install-deps", "stale output"), ("package.json", "manifest")]
    "manifest" "install-deps" (by decide) (by decide)

/-- C4 counterexample.  The claim says the Environment Recorder runs
immediately after Workspace Reset and before any Part's cells; in the
script the `install-deps` cell (not the Workspace Reset) occupies
position 1, before `capture_environment` at position 2. -/
theorem orchestration_env_not_second :
    pipelineSteps[1]? = some (Step.cell "install-deps") ∧
    pipelineSteps[1]? ≠ some Step.env ∧
    pipelineSteps[2]? = some Step.env ∧
    "install-deps" ≠ "reset-workspace" := by decide

/-- C4 amended.  The run order is: Workspace Reset (`reset-workspace`,
exactly once, first), then the `install-deps` cell, then the Environment
Recorder, then the Phase-0 snapshot, and then, for each Part in the fixed
predefined order, all of that Part's cells in sequence followed by that
Part's single snapshot — so no cell of a later Part runs before an
earlier Part's snapshot completes. -/
theorem orchestration_order :
    pipelineSteps =
      [Step.cell "reset-workspace", Step.cell "install-deps", Step.env,
        Step.snap "00-setup"] ++
      (partList.map (fun pl => pl.2.map Step.cell ++ [Step.snap pl.1])).flatten ∧
    pipelineSteps.count (Step.cell "reset-workspace") = 1 := by decide

/-! ### Path-prefix arithmetic for the snapshot directory -/

theorem pathUnder_app_app (d a b : String) :
    pathUnder (d ++ a) (d ++ b) = pathUnder a b := by
  unfold pathUnder
  rw [String.data_append, String.data_append, Bool.eq_iff_iff,
    List.isPrefixOf_iff_prefix, List.isPrefixOf_iff_prefix]
  exact List.prefix_append_right_inj _

/-- If a concrete prefix `d` does not occur at the front of a concrete
string `a` (and is no longer than `a`), then `d` is not a prefix of any
extension of `a` either. -/
theorem pathUnder_app_false_of (d a x : String)
    (hlen : d.data.length ≤ a.data.length)
    (hne : d.data ≠ a.data.take d.data.length) :
    pathUnder d (a ++ x) = false := by
  cases hpu : pathUnder d (a ++ x)
  · rfl
  · exfalso
    have hpre := pathUnder_iff.mp hpu
    rw [String.data_append] at hpre
    have htake := List.prefix_iff_eq_take.mp hpre
    rw [List.take_append_of_le_length hlen] at htake
    exact hne htake

theorem app_ne_of_not_under {a x q : String} (h : pathUnder a q = false) :
    a ++ x ≠ q := by
  intro he
  have hT := pathUnder_append a x
  rw [he, h] at hT
  cases hT

/-- Normal form of a snapshot write target. -/
theorem snapDir_app_eq (label t : String) :
    snapDir label ++ t = snapRoot ++ ((label ++ "/") ++ t) :=
  str_append_assoc snapRoot (label ++ "/") t

theorem snapDir_app2_eq (label s x : String) :
    (snapDir label ++ s) ++ x = snapRoot ++ ((label ++ "/") ++ (s ++ x)) := by
  rw [str_append_assoc (snapDir label) s x, snapDir_app_eq]

theorem pathUnder_docs_snapDir (label t : String) :
    pathUnder "docs-generated/" (snapDir label ++ t) = false := by
  rw [snapDir_app_eq]
  exact pathUnder_app_false_of _ _ _ (by decide) (by decide)

theorem pathUnder_docs_snapDir2 (label s x : String) :
    pathUnder "docs-generated/" ((snapDir label ++ s) ++ x) = false := by
  rw [snapDir_app2_eq]
  exact pathUnder_app_false_of _ _ _ (by decide) (by decide)

/-! ### Membership in the snapshot stages -/

theorem mem_setFile {fs : FS} {p c : String} {e : String × String}
    (h : e ∈ setFile fs p c) : e = (p, c) ∨ e ∈ fs := by
  unfold setFile at h
  rcases List.mem_cons.mp h with h | h
  · exact Or.inl h
  · exact Or.inr (List.mem_filter.mp h).1

theorem mem_copyInto {fs : FS} {s d : String} {e : String × String}
    (h : e ∈ copyInto fs s d) : (∃ x c, e = (d ++ x, c)) ∨ e ∈ fs := by
  unfold copyInto at h
  rcases List.mem_append.mp h with h | h
  · obtain ⟨a, _, hae⟩ := List.mem_filterMap.mp h
    by_cases hu : pathUnder s a.fst = true
    · rw [if_pos hu] at hae
      cases hae
      exact Or.inl ⟨_, _, rfl⟩
    · rw [if_neg hu] at hae
      cases hae
  · exact Or.inr h

theorem mem_snapCopySrc {dir : String} {fs : FS} {e : String × String}
    (h : e ∈ snapCopySrc dir fs) :
    (∃ x c, e = ((dir ++ "src/") ++ x, c)) ∨ e ∈ fs := by
  unfold snapCopySrc at h
  split at h
  · exact mem_copyInto h
  · exact Or.inr h

theorem mem_snapCopyFile {dir name : String} {fs : FS} {e : String × String}
    (h : e ∈ snapCopyFile dir name fs) :
    (∃ c, e = (dir ++ name, c)) ∨ e ∈ fs := by
  unfold snapCopyFile at h
  split at h
  · rcases mem_setFile h with h | h
    · exact Or.inl ⟨_, h⟩
    · exact Or.inr h
  · exact Or.inr h

theorem dirExists_false_iff {fs : FS} {d : String} :
    dirExists fs d = false ↔ ∀ e ∈ fs, pathUnder d e.fst = false := by
  unfold dirExists
  rw [List.any_eq_false]
  constructor
  · intro h e he
    exact Bool.not_eq_true _ ▸ h e he
  · intro h e he
    rw [h e he]
    simp

/-- Two concrete prefixes neither of which starts the other are disjoint:
no extension of one lies under the other. -/
theorem pathUnder_app_false_incomp (d a x : String)
    (h1 : d.data.isPrefixOf a.data = false)
    (h2 : a.data.isPrefixOf d.data = false) :
    pathUnder d (a ++ x) = false := by
  cases hpu : pathUnder d (a ++ x)
  · rfl
  · exfalso
    have hd := pathUnder_iff.mp hpu
    rw [String.data_append] at hd
    have ha : a.data <+: a.data ++ x.data := List.prefix_append _ _
    rcases List.prefix_or_prefix_of_prefix hd ha with h | h
    · rw [← List.isPrefixOf_iff_prefix, h1] at h
      cases h
    · rw [← List.isPrefixOf_iff_prefix, h2] at h
      cases h

theorem charListLe_cons (a b : Char) (as bs : List Char) :
    charListLe (a :: as) (b :: bs) =
      if a.val.toNat = b.val.toNat then charListLe as bs
      else decide (a.val.toNat < b.val.toNat) := rfl

theorem charListLe_total : ∀ a b, charListLe a b = true ∨ charListLe b a = true := by
  intro a
  induction a with
  | nil => exact fun b => Or.inl rfl
  | cons x as ih =>
    intro b
    cases b with
    | nil => exact Or.inr rfl
    | cons y bs =>
      rw [charListLe_cons, charListLe_cons]
      by_cases hxy : x.val.toNat = y.val.toNat
      · rw [if_pos hxy, if_pos hxy.symm]
        exact ih bs
      · rw [if_neg hxy, if_neg (fun h => hxy h.symm)]
        rcases Nat.lt_or_ge x.val.toNat y.val.toNat with h | h
        · exact Or.inl (decide_eq_true h)
        · exact Or.inr (decide_eq_true
            (Nat.lt_of_le_of_ne h (fun hh => hxy hh.symm)))

theorem charListLe_trans :
    ∀ a b c, charListLe a b = true → charListLe b c = true →
      charListLe a c = true := by
  intro a
  induction a with
  | nil => exact fun b c _ _ => rfl
  | cons x as ih =>
    intro b c hab hbc
    cases b with
    | nil => cases hab
    | cons y bs =>
      cases c with
      | nil => cases hbc
      | cons z cs =>
        rw [charListLe_cons] at hab hbc ⊢
        by_cases hxy : x.val.toNat = y.val.toNat
        · rw [if_pos hxy] at hab
          by_cases hyz : y.val.toNat = z.val.toNat
          · rw [if_pos hyz] at hbc
            rw [if_pos (hxy.trans hyz)]
            exact ih bs cs hab hbc
          · rw [if_neg hyz] at hbc
            have hlt := of_decide_eq_true hbc
            rw [if_neg (fun h => hyz (hxy ▸ h))]
            exact decide_eq_true (hxy.symm ▸ hlt)
        · rw [if_neg hxy] at hab
          have hlt := of_decide_eq_true hab
          by_cases hyz : y.val.toNat = z.val.toNat
          · rw [if_neg (fun h => hxy (h.trans hyz.symm))]
            exact decide_eq_true (hyz ▸ hlt)
          · rw [if_neg hyz] at hbc
            have hlt2 := of_decide_eq_true hbc
            have hxz := Nat.lt_trans hlt hlt2
            rw [if_neg (Nat.ne_of_lt hxz)]
            exact decide_eq_true hxz

theorem strLe_total (a b : String) : strLe a b = true ∨ strLe b a = true :=
  charListLe_total _ _

theorem strLe_trans {a b c : String} (h1 : strLe a b = true)
    (h2 : strLe b c = true) : strLe a c = true :=
  charListLe_trans _ _ _ h1 h2

theorem mem_strOrderedInsert {x a : String} :
    ∀ {l : List String}, x ∈ strOrderedInsert a l ↔ x = a ∨ x ∈ l := by
  intro l
  induction l with
  | nil => simp [strOrderedInsert]
  | cons b l ih =>
    unfold strOrderedInsert
    split
    · simp [List.mem_cons]
    · simp only [List.mem_cons, ih]
      tauto

theorem pairwise_strOrderedInsert {a : String} {l : List String}
    (h : l.Pairwise (fun x y => strLe x y = true)) :
    (strOrderedInsert a l).Pairwise (fun x y => strLe x y = true) := by
  induction l with
  | nil => simp [strOrderedInsert]
  | cons b l ih =>
    rcases List.pairwise_cons.mp h with ⟨hb, hl⟩
    unfold strOrderedInsert
    split
    · rename_i hab
      refine List.pairwise_cons.mpr ⟨?_, h⟩
      intro y hy
      rcases List.mem_cons.mp hy with rfl | hy
      · exact hab
      · exact strLe_trans hab (hb y hy)
    · rename_i hab
      have hba : strLe b a = true := by
        rcases strLe_total a b with h' | h'
        · exact absurd h' hab
        · exact h'
      refine List.pairwise_cons.mpr ⟨?_, ih hl⟩
      intro y hy
      rcases mem_strOrderedInsert.mp hy with rfl | hy
      · exact hba
      · exact hb y hy

theorem pairwise_sortStrings (l : List String) :
    (sortStrings l).Pairwise (fun x y => strLe x y = true) := by
  induction l with
  | nil => exact List.Pairwise.nil
  | cons a l ih => exact pairwise_strOrderedInsert ih

theorem mem_sortStrings {x : String} {l : List String} :
    x ∈ sortStrings l ↔ x ∈ l := by
  induction l with
  | nil => exact Iff.rfl
  | cons a l ih =>
    unfold sortStrings
    rw [mem_strOrderedInsert, ih, List.mem_cons]

/-- C5.  The `tree.txt` of every successful snapshot lists paths one per
line in lexicographically sorted order (`strLe` is byte-lexicographic
string order), with no entry under any of the excluded housekeeping
directories. -/
theorem snapshot_tree_spec (label : String) (fs fs' : FS)
    (h : snapshot_files label fs = some fs') :
    ∃ lines : List String,
      getFile fs' (snapDir label ++ "tree.txt") = some (treeText lines) ∧
      lines.Pairwise (fun a b => strLe a b = true) ∧
      ∀ l ∈ lines, excludedB l = false := by
  simp only [snapshot_files] at h
  split at h
  · cases h
  · cases h
    refine ⟨treeLines _, getFile_setFile_self _ _ _, ?_, ?_⟩
    · exact pairwise_sortStrings _
    · intro l hl
      unfold treeLines at hl
      rw [mem_sortStrings] at hl
      have hf := (List.mem_filter.mp hl).2
      simpa using hf

/-- Witness for C5 on a concrete workspace containing a tracked file, an
excluded `node_modules` file, and the manifest. -/
theorem snapshot_tree_spec_witness :
    ∃ lines : List String,
      getFile ((snapshot_files "00-setup"
          [("package.json", "manifest"), ("src/a.ts", "code"),
            ("node_modules/x/package.json", "dep")]).getD [])
        (snapDir "00-setup" ++ "tree.txt") = some (treeText lines) ∧
      lines.Pairwise (fun a b => strLe a b = true) ∧
      ∀ l ∈ lines, excludedB l = false :=
  snapshot_tree_spec "00-setup"
    [("package.json", "manifest"), ("src/a.ts", "code"),
      ("node_modules/x/package.json", "dep")]
    ((snapshot_files "00-setup"
        [("package.json", "manifest"), ("src/a.ts", "code"),
          ("node_modules/x/package.json", "dep")]).getD [])
    (by decide)

/-- C3 counterexample.  The claim includes the package manifest among the
paths that are "silently skipped" when absent; in the script the
`cp package.json "$dir/"` is the one unguarded copy, so with no
`package.json` in the workspace the Snapshot Capturer fails (under
`set -e` the whole script aborts) instead of skipping it. -/
theorem snapshot_missing_manifest_aborts :
    snapshot_files "03-first-annotation"
      [("src/sample-sources/user-service.ts", "code")] = none := by decide

/-- C3 amended.  For every PartLabel and every *optional* path in the
Snapshot Capturer's fixed list (the `src/` tree, the two config files,
the `docs-generated/` tree — but not the package manifest, whose copy is
unguarded and fails fatally when it is missing): if the path does not
exist at snapshot time it is skipped without error, and the snapshot
directory simply lacks it (nothing is written below the corresponding
snapshot path). -/
theorem snapshot_skips_missing (label : String) (fs : FS) (m : String)
    (hm : getFile fs "package.json" = some m) :
    ∃ fs', snapshot_files label fs = some fs' ∧
      (dirExists fs "src/" = false →
        ∀ p, pathUnder (snapDir label ++ "src/") p = true →
          getFile fs' p = getFile fs p) ∧
      (getFile fs "delivery-process.config.ts" = none →
        getFile fs' (snapDir label ++ "delivery-process.config.ts") =
          getFile fs (snapDir label ++ "delivery-process.config.ts")) ∧
      (getFile fs "tsconfig.json" = none →
        getFile fs' (snapDir label ++ "tsconfig.json") =
          getFile fs (snapDir label ++ "tsconfig.json")) ∧
      (dirExists fs "docs-generated/" = false →
        ∀ p, pathUnder (snapDir label ++ "docs-generated/") p = true →
          getFile fs' p = getFile fs p) := by
  have hnp : pathUnder snapRoot "package.json" = false := by decide
  have h3 : getFile (snapCopyFile (snapDir label) "tsconfig.json"
      (snapCopyFile (snapDir label) "delivery-process.config.ts"
        (snapCopySrc (snapDir label) fs))) "package.json" = some m := by
    rw [snapCopyFile_getFile (snapDir_app_ne hnp),
      snapCopyFile_getFile (snapDir_app_ne hnp),
      snapCopySrc_getFile (fun x => snapDir_app2_ne hnp)]
    exact hm
  obtain ⟨fs', hfs'⟩ : ∃ fs', snapshot_files label fs = some fs' := by
    simp only [snapshot_files, h3]
    exact ⟨_, rfl⟩
  have hval := hfs'
  simp only [snapshot_files, h3] at hval
  injection hval with hval
  subst hval
  refine ⟨_, hfs', ?_, ?_, ?_, ?_⟩
  · -- `src/` absent: nothing is written below `<dir>/src/`.
    intro hsrc p hp
    have hk_tree : pathUnder (snapDir label ++ "src/")
        (snapDir label ++ "tree.txt") = false := by
      rw [pathUnder_app_app]
      decide
    have hk_pkg : pathUnder (snapDir label ++ "src/")
        (snapDir label ++ "package.json") = false := by
      rw [pathUnder_app_app]
      decide
    have hk_ts : pathUnder (snapDir label ++ "src/")
        (snapDir label ++ "tsconfig.json") = false := by
      rw [pathUnder_app_app]
      decide
    have hk_cfg : pathUnder (snapDir label ++ "src/")
        (snapDir label ++ "delivery-process.config.ts") = false := by
      rw [pathUnder_app_app]
      decide
    have hk_docs : ∀ x, pathUnder (snapDir label ++ "src/")
        ((snapDir label ++ "docs-generated/") ++ x) = false := by
      intro x
      rw [str_append_assoc, pathUnder_app_app]
      exact pathUnder_app_false_incomp _ _ _ (by decide) (by decide)
    rw [getFile_setFile_ne _ _ _ _ (ne_of_pathUnder hp hk_tree),
      snapCopyDocs_getFile (fun x => Ne.symm (ne_of_pathUnder hp (hk_docs x))),
      getFile_setFile_ne _ _ _ _ (ne_of_pathUnder hp hk_pkg),
      snapCopyFile_getFile (Ne.symm (ne_of_pathUnder hp hk_ts)),
      snapCopyFile_getFile (Ne.symm (ne_of_pathUnder hp hk_cfg)),
      snapCopySrc_of_false hsrc]
  · -- config file absent: its snapshot path is not written.
    intro hcfg
    have hsk : ∀ x, (snapDir label ++ "src/") ++ x ≠
        snapDir label ++ "delivery-process.config.ts" := by
      intro x he
      rw [str_append_assoc] at he
      exact app_ne_of_not_under (a := "src/") (by decide)
        (str_append_left_cancel he)
    have hdk : ∀ x, (snapDir label ++ "docs-generated/") ++ x ≠
        snapDir label ++ "delivery-process.config.ts" := by
      intro x he
      rw [str_append_assoc] at he
      exact app_ne_of_not_under (a := "docs-generated/") (by decide)
        (str_append_left_cancel he)
    have hne : ∀ x y : String, x ≠ y →
        snapDir label ++ x ≠ snapDir label ++ y :=
      fun x y h he => h (str_append_left_cancel he)
    have h1 : getFile (snapCopySrc (snapDir label) fs)
        "delivery-process.config.ts" = none := by
      rw [snapCopySrc_getFile (fun x => by
        rw [snapDir_app2_eq]
        exact app_ne_of_not_under (a := snapRoot) (by decide))]
      exact hcfg
    rw [getFile_setFile_ne _ _ _ _ (Ne.symm (hne _ _ (by decide))),
      snapCopyDocs_getFile hdk,
      getFile_setFile_ne _ _ _ _ (Ne.symm (hne _ _ (by decide))),
      snapCopyFile_getFile (hne _ _ (by decide)),
      snapCopyFile_of_none h1, snapCopySrc_getFile hsk]
  · -- tsconfig absent: its snapshot path is not written.
    intro hts
    have hsk : ∀ x, (snapDir label ++ "src/") ++ x ≠
        snapDir label ++ "tsconfig.json" := by
      intro x he
      rw [str_append_assoc] at he
      exact app_ne_of_not_under (a := "src/") (by decide)
        (str_append_left_cancel he)
    have hdk : ∀ x, (snapDir label ++ "docs-generated/") ++ x ≠
        snapDir label ++ "tsconfig.json" := by
      intro x he
      rw [str_append_assoc] at he
      exact app_ne_of_not_under (a := "docs-generated/") (by decide)
        (str_append_left_cancel he)
    have hne : ∀ x y : String, x ≠ y →
        snapDir label ++ x ≠ snapDir label ++ y :=
      fun x y h he => h (str_append_left_cancel he)
    have h2 : getFile (snapCopyFile (snapDir label) "delivery-process.config.ts"
        (snapCopySrc (snapDir label) fs)) "tsconfig.json" = none := by
      rw [snapCopyFile_getFile (by
          rw [snapDir_app_eq]
          exact app_ne_of_not_under (a := snapRoot) (by decide)),
        snapCopySrc_getFile (fun x => by
          rw [snapDir_app2_eq]
          exact app_ne_of_not_under (a := snapRoot) (by decide))]
      exact hts
    rw [getFile_setFile_ne _ _ _ _ (Ne.symm (hne _ _ (by decide))),
      snapCopyDocs_getFile hdk,
      getFile_setFile_ne _ _ _ _ (Ne.symm (hne _ _ (by decide))),
      snapCopyFile_of_none h2,
      snapCopyFile_getFile (hne _ _ (by decide)),
      snapCopySrc_getFile hsk]
  · -- `docs-generated/` absent: nothing is written below its snapshot dir.
    intro hdocs p hp
    have hdx : dirExists (setFile (snapCopyFile (snapDir label) "tsconfig.json"
        (snapCopyFile (snapDir label) "delivery-process.config.ts"
          (snapCopySrc (snapDir label) fs)))
        (snapDir label ++ "package.json") m) "docs-generated/" = false := by
      rw [dirExists_false_iff]
      intro e he
      rcases mem_setFile he with rfl | he
      · exact pathUnder_docs_snapDir label "package.json"
      · rcases mem_snapCopyFile he with ⟨c, rfl⟩ | he
        · exact pathUnder_docs_snapDir label "tsconfig.json"
        · rcases mem_snapCopyFile he with ⟨c, rfl⟩ | he
          · exact pathUnder_docs_snapDir label "delivery-process.config.ts"
          · rcases mem_snapCopySrc he with ⟨x, c, rfl⟩ | he
            · exact pathUnder_docs_snapDir2 label "src/" x
            · exact dirExists_false_iff.mp hdocs e he
    have hk_tree : pathUnder (snapDir label ++ "docs-generated/")
        (snapDir label ++ "tree.txt") = false := by
      rw [pathUnder_app_app]
      decide
    have hk_pkg : pathUnder (snapDir label ++ "docs-generated/")
        (snapDir label ++ "package.json") = false := by
      rw [pathUnder_app_app]
      decide
    have hk_ts : pathUnder (snapDir label ++ "docs-generated/")
        (snapDir label ++ "tsconfig.json") = false := by
      rw [pathUnder_app_app]
      decide
    have hk_cfg : pathUnder (snapDir label ++ "docs-generated/")
        (snapDir label ++ "delivery-process.config.ts") = false := by
      rw [pathUnder_app_app]
      decide
    have hk_src : ∀ x, pathUnder (snapDir label ++ "docs-generated/")
        ((snapDir label ++ "src/") ++ x) = false := by
      intro x
      rw [str_append_assoc, pathUnder_app_app]
      exact pathUnder_app_false_incomp _ _ _ (by decide) (by decide)
    rw [getFile_setFile_ne _ _ _ _ (ne_of_pathUnder hp hk_tree),
      snapCopyDocs_of_false hdx,
      getFile_setFile_ne _ _ _ _ (ne_of_pathUnder hp hk_pkg),
      snapCopyFile_getFile (Ne.symm (ne_of_pathUnder hp hk_ts)),
      snapCopyFile_getFile (Ne.symm (ne_of_pathUnder hp hk_cfg)),
      snapCopySrc_getFile (fun x => Ne.symm (ne_of_pathUnder hp (hk_src x)))]

/-- Witness for C3: a workspace holding only the manifest — the source
tree, both config files and the generated-docs tree are all absent — is
snapshotted without error, and the snapshot adds nothing at their
would-be locations. -/
theorem snapshot_skips_missing_witness :
    ∃ fs', snapshot_files "01-project-setup" [("package.json", "manifest")] = some fs' ∧
      (dirExists [("package.json", "manifest")] "src/" = false →
        ∀ p, pathUnder (snapDir "01-project-setup" ++ "src/") p = true →
          getFile fs' p = getFile [("package.json", "manifest")] p) ∧
      (getFile [("package.json", "manifest")] "delivery-process.config.ts" = none →
        getFile fs' (snapDir "01-project-setup" ++ "delivery-process.config.ts") =
          getFile [("package.json", "manifest")]
            (snapDir "01-project-setup" ++ "delivery-process.config.ts")) ∧
      (getFile [("package.json", "manifest")] "tsconfig.json" = none →
        getFile fs' (snapDir "01-project-setup" ++ "tsconfig.json") =
          getFile [("package.json", "manifest")]
            (snapDir "01-project-setup" ++ "tsconfig.json")) ∧
      (dirExists [("package.json", "manifest")] "docs-generated/" = false →
        ∀ p, pathUnder (snapDir "01-project-setup" ++ "docs-generated/") p = true →
          getFile fs' p = getFile [("package.json", "manifest")] p) :=
  snapshot_skips_missing "01-project-setup" [("package.json", "manifest")]
    "manifest" (by decide)

/-- C7.  The Environment Recorder always succeeds: it writes
`environment.txt` whose content is the newline-separated `key: value`
lines for date, node, npm, os and package; the content is never empty;
and when the external dependency's version cannot be resolved the
`package` line records the sentinel `unknown` instead of failing. -/
theorem capture_environment_spec (e : EnvInfo) (fs : FS) :
    getFile (capture_environment e fs) envPath = some (envText e) ∧
    envText e = String.intercalate "\n" (envLines e) ++ "\n" ∧
    envText e ≠ "" ∧
    (e.pkgVersion = none → "package: unknown" ∈ envLines e) := by
  refine ⟨getFile_setFile_self _ _ _, rfl, ?_, ?_⟩
  · intro h
    have hl := congrArg String.length h
    rw [envText, String.length_append] at hl
    simp at hl
    exact absurd hl.2 (by decide)
  · intro h
    unfold envLines
    rw [h]
    have hu : ("package: " ++ Option.getD none "unknown" : String)
        = "package: unknown" := by decide
    rw [hu]
    simp

/-- Witness for C7 with the dependency missing: the record is written and
carries the `unknown` sentinel on the `package` line. -/
theorem capture_environment_spec_witness :
    getFile (capture_environment
        ⟨"2026-02-21", "v22.17.1", "11.6.1", "Darwin", "25.2.0", none⟩ []) envPath
      = some (envText ⟨"2026-02-21", "v22.17.1", "11.6.1", "Darwin", "25.2.0", none⟩) ∧
    "package: unknown" ∈
      envLines ⟨"2026-02-21", "v22.17.1", "11.6.1", "Darwin", "25.2.0", none⟩ :=
  ⟨(capture_environment_spec
      ⟨"2026-02-21", "v22.17.1", "11.6.1", "Darwin", "25.2.0", none⟩ []).1,
   (capture_environment_spec
      ⟨"2026-02-21", "v22.17.1", "11.6.1", "Darwin", "25.2.0", none⟩ []).2.2.2 rfl⟩

theorem getFile_filter_none {fs : FS} {keep : String × String → Bool} {p : String}
    (h : ∀ e : String × String, e.fst = p → keep e = false) :
    getFile (fs.filter keep) p = none := by
  have hf : List.find? (fun e => e.fst == p) (fs.filter keep) = none := by
    rw [List.find?_eq_none]
    intro x hx hbeq
    have hxp : x.fst = p := by simpa using hbeq
    have hk := (List.mem_filter.mp hx).2
    rw [h x hxp] at hk
    cases hk
  unfold getFile
  rw [hf]
  rfl

/-- C6.  The Workspace Reset cell deletes every file under `src/` and
`docs-generated/` and the files `tsconfig.json` and
`delivery-process.config.ts`, and rewrites `package.json` to the minimal
manifest — whose top-level keys are exactly name, version, type, private,
dependencies, devDependencies (so no `scripts` key, and nothing derived
from the devDependencies), and whose dependency sections are exactly the
declared ones. -/
theorem reset_workspace_spec (fs : FS) :
    (∀ p, (pathUnder "src/" p = true ∨ pathUnder "docs-generated/" p = true ∨
        p = "tsconfig.json" ∨ p = "delivery-process.config.ts") →
      getFile (resetWorkspaceCell fs) p = none) ∧
    getFile (resetWorkspaceCell fs) "package.json" = some manifestText ∧
    "scripts" ∉ manifestKeys ∧
    manifestDependencies = [("@libar-dev/delivery-process", "1.0.0-pre.0")] ∧
    manifestDevDependencies = [("typescript", "^5.7.0"), ("tsx", "^4.19.0")] := by
  refine ⟨?_, getFile_setFile_self _ _ _, by decide, rfl, rfl⟩
  intro p hp
  have hppkg : p ≠ "package.json" := by
    rcases hp with h | h | h | h
    · obtain ⟨t, rfl⟩ := eq_append_of_pathUnder h
      exact app_ne_of_not_under (by decide)
    · obtain ⟨t, rfl⟩ := eq_append_of_pathUnder h
      exact app_ne_of_not_under (by decide)
    · rw [h]
      decide
    · rw [h]
      decide
  unfold resetWorkspaceCell
  rw [getFile_setFile_ne _ _ _ _ hppkg]
  apply getFile_filter_none
  intro e he
  rcases hp with h | h | h | h
  · rw [he, h]
    simp
  · rw [he, h]
    simp
  · rw [he, h]
    simp
  · rw [he, h]
    simp

/-- Witness for C6: in a workspace holding a source file, a config and a
stale manifest, the reset deletes the generated paths and rewrites the
manifest. -/
theorem reset_workspace_spec_witness :
    getFile (resetWorkspaceCell
      [("src/app.ts", "code"), ("tsconfig.json", "cfg"),
        ("package.json", "old")]) "tsconfig.json" = none ∧
    getFile (resetWorkspaceCell
      [("src/app.ts", "code"), ("tsconfig.json", "cfg"),
        ("package.json", "old")]) "src/app.ts" = none ∧
    getFile (resetWorkspaceCell
      [("src/app.ts", "code"), ("tsconfig.json", "cfg"),
        ("package.json", "old")]) "package.json" = some manifestText :=
  ⟨(reset_workspace_spec _).1 "tsconfig.json" (Or.inr (Or.inr (Or.inl rfl))),
   (reset_workspace_spec _).1 "src/app.ts" (Or.inl (by decide)),
   (reset_workspace_spec _).2.1⟩

theorem readRef_alloc_new {α : Type} (h : EvHeap α) (v : List (DomainEvent α)) :
    readRef (allocRef h v).1 (allocRef h v).2 = v := by
  unfold readRef allocRef
  rw [List.getD_eq_getElem?_getD, List.getElem?_concat_length]
  rfl

theorem readRef_alloc_old {α : Type} (h : EvHeap α) (v : List (DomainEvent α))
    (r : Nat) (hr : r < h.length) : readRef (allocRef h v).1 r = readRef h r := by
  unfold readRef allocRef
  rw [List.getD_eq_getElem?_getD, List.getD_eq_getElem?_getD,
    List.getElem?_append_left hr]

theorem readRef_write_ne {α : Type} (h : EvHeap α) (v : List (DomainEvent α))
    (r r' : Nat) (hne : r ≠ r') : readRef (writeRef h r v) r' = readRef h r' := by
  unfold readRef writeRef
  rw [List.getD_eq_getElem?_getD, List.getD_eq_getElem?_getD,
    List.getElem?_set_ne hne]

/-- C9.  For every valid store state: `getAll` returns a *fresh* array
(a reference distinct from the store's internal one) whose content is
exactly the store's events in insertion order (`append` pushes at the
tail); neither `getAll` nor `getByType` modifies the store's internal
event list; and after a client mutates the array `getAll` returned —
overwriting it with arbitrary content `v` — the store's internal list,
a subsequent `getAll` and a subsequent `getByType` are all unchanged. -/
theorem eventStore_queries_pure {α : Type} (s : EventStore) (h : EvHeap α)
    (hv : s.events < h.length) :
    readRef (s.getAll h).1 (s.getAll h).2 = readRef h s.events ∧
    (s.getAll h).2 ≠ s.events ∧
    readRef (s.getAll h).1 s.events = readRef h s.events ∧
    (∀ t, readRef (s.getByType h t).1 s.events = readRef h s.events) ∧
    (∀ t, readRef (s.getByType h t).1 (s.getByType h t).2 =
      (readRef h s.events).filter (fun e => e.type == t)) ∧
    (∀ ty p now, readRef (s.append h ty p now) s.events =
      readRef h s.events ++ [⟨ty, p, now⟩]) ∧
    ∀ v, readRef (writeRef (s.getAll h).1 (s.getAll h).2 v) s.events =
        readRef h s.events ∧
      readRef ((s.getAll (writeRef (s.getAll h).1 (s.getAll h).2 v)).1)
        ((s.getAll (writeRef (s.getAll h).1 (s.getAll h).2 v)).2) =
        readRef h s.events ∧
      ∀ t, readRef ((s.getByType (writeRef (s.getAll h).1 (s.getAll h).2 v) t).1)
          ((s.getByType (writeRef (s.getAll h).1 (s.getAll h).2 v) t).2) =
        (readRef h s.events).filter (fun e => e.type == t) := by
  have hfresh : (s.getAll h).2 ≠ s.events := fun he => by
    have := he ▸ hv
    exact absurd this (lt_irrefl _)
  have hmut : ∀ v, readRef (writeRef (s.getAll h).1 (s.getAll h).2 v) s.events
      = readRef h s.events := by
    intro v
    rw [readRef_write_ne _ _ _ _ hfresh]
    exact readRef_alloc_old h _ s.events hv
  refine ⟨readRef_alloc_new _ _, hfresh, readRef_alloc_old h _ s.events hv,
    fun t => readRef_alloc_old h _ s.events hv,
    fun t => readRef_alloc_new _ _,
    fun ty p now => ?_,
    fun v => ⟨hmut v, ?_, fun t => ?_⟩⟩
  · unfold EventStore.append writeRef readRef
    rw [List.getD_eq_getElem?_getD, List.getElem?_set_self (by simpa using hv)]
    rfl
  · rw [show (s.getAll (writeRef (s.getAll h).1 (s.getAll h).2 v)) =
      allocRef _ (readRef (writeRef (s.getAll h).1 (s.getAll h).2 v) s.events)
      from rfl, readRef_alloc_new, hmut]
  · rw [show (s.getByType (writeRef (s.getAll h).1 (s.getAll h).2 v) t) =
      allocRef _ ((readRef (writeRef (s.getAll h).1 (s.getAll h).2 v) s.events).filter
        (fun e => e.type == t)) from rfl, readRef_alloc_new, hmut]

/-- Witness for C9 on a one-event store: `getAll` returns a fresh
reference carrying the stored events. -/
theorem eventStore_queries_pure_witness :
    readRef ((EventStore.mk 0).getAll
        ([[⟨"user.registered", 7, 5⟩]] : EvHeap Nat)).1
      ((EventStore.mk 0).getAll ([[⟨"user.registered", 7, 5⟩]] : EvHeap Nat)).2 =
      readRef ([[⟨"user.registered", 7, 5⟩]] : EvHeap Nat) 0 ∧
    ((EventStore.mk 0).getAll ([[⟨"user.registered", 7, 5⟩]] : EvHeap Nat)).2 ≠ 0 ∧
    ∀ v, readRef (writeRef
        ((EventStore.mk 0).getAll ([[⟨"user.registered", 7, 5⟩]] : EvHeap Nat)).1
        ((EventStore.mk 0).getAll ([[⟨"user.registered", 7, 5⟩]] : EvHeap Nat)).2
        v) 0 =
      readRef ([[⟨"user.registered", 7, 5⟩]] : EvHeap Nat) 0 :=
  ⟨(eventStore_queries_pure ⟨0⟩ [[⟨"user.registered", 7, 5⟩]] (by decide)).1,
   (eventStore_queries_pure ⟨0⟩ [[⟨"user.registered", 7, 5⟩]] (by decide)).2.1,
   fun v => ((eventStore_queries_pure ⟨0⟩ [[⟨"user.registered", 7, 5⟩]]
     (by decide)).2.2.2.2.2.2 v).1⟩

theorem lookupUser_setUser_self (l : List (String × UserRecord))
    (k : String) (v : UserRecord) : lookupUser (setUser l k v) k = some v := by
  induction l with
  | nil => simp [setUser, lookupUser]
  | cons e rest ih =>
    obtain ⟨k', v'⟩ := e
    unfold setUser
    by_cases hk : k' = k
    · rw [if_pos hk]
      simp [lookupUser]
    · rw [if_neg hk]
      unfold lookupUser
      rw [if_neg hk]
      exact ih

theorem lookupUser_setUser_ne (l : List (String × UserRecord))
    (k id' : String) (v : UserRecord) (h : id' ≠ k) :
    lookupUser (setUser l k v) id' = lookupUser l id' := by
  induction l with
  | nil =>
    simp only [setUser, lookupUser]
    rw [if_neg (fun hh => h hh.symm)]
  | cons e rest ih =>
    obtain ⟨k', v'⟩ := e
    unfold setUser
    by_cases hk : k' = k
    · rw [if_pos hk]
      unfold lookupUser
      rw [if_neg (fun hh => h hh.symm), if_neg (fun hh => h (hk ▸ hh).symm)]
    · rw [if_neg hk]
      unfold lookupUser
      by_cases hk' : k' = id'
      · rw [if_pos hk', if_pos hk']
      · rw [if_neg hk', if_neg hk']
        exact ih

/-- C10.  `deactivate(id)` returns `false` and leaves the whole service
state unchanged when no user with that id exists; when the user exists it
returns `true`, the user keeps its id and email but gets `active = false`,
and every other id maps to exactly what it mapped to before. -/
theorem userService_deactivate_spec (s : UserService) (id : String) :
    (lookupUser s.users id = none → s.deactivate id = (s, false)) ∧
    ∀ u, lookupUser s.users id = some u →
      (s.deactivate id).2 = true ∧
      lookupUser (s.deactivate id).1.users id = some ⟨u.id, u.email, false⟩ ∧
      ∀ id', id' ≠ id →
        lookupUser (s.deactivate id).1.users id' = lookupUser s.users id' := by
  constructor
  · intro h
    unfold UserService.deactivate
    rw [h]
  · intro u hu
    unfold UserService.deactivate
    rw [hu]
    exact ⟨rfl, lookupUser_setUser_self _ _ _,
      fun id' hid' => lookupUser_setUser_ne _ _ _ _ hid'⟩

/-- Witness for C10: deactivating a missing id is a no-op returning
`false`; deactivating an existing user flips only its `active` flag and
leaves the other user untouched. -/
theorem userService_deactivate_spec_witness :
    (UserService.deactivate
        ⟨[("u1", ⟨"u1", "ann@example.com", true⟩),
          ("u2", ⟨"u2", "bob@example.com", true⟩)]⟩ "nope" =
      (⟨[("u1", ⟨"u1", "ann@example.com", true⟩),
          ("u2", ⟨"u2", "bob@example.com", true⟩)]⟩, false)) ∧
    ((UserService.deactivate
        ⟨[("u1", ⟨"u1", "ann@example.com", true⟩),
          ("u2", ⟨"u2", "bob@example.com", true⟩)]⟩ "u1").2 = true) ∧
    lookupUser (UserService.deactivate
        ⟨[("u1", ⟨"u1", "ann@example.com", true⟩),
          ("u2", ⟨"u2", "bob@example.com", true⟩)]⟩ "u1").1.users "u1" =
      some ⟨"u1", "ann@example.com", false⟩ ∧
    lookupUser (UserService.deactivate
        ⟨[("u1", ⟨"u1", "ann@example.com", true⟩),
          ("u2", ⟨"u2", "bob@example.com", true⟩)]⟩ "u1").1.users "u2" =
      lookupUser [("u1", ⟨"u1", "ann@example.com", true⟩),
          ("u2", ⟨"u2", "bob@example.com", true⟩)] "u2" :=
  ⟨(userService_deactivate_spec _ "nope").1 (by decide),
   ((userService_deactivate_spec _ "u1").2 ⟨"u1", "ann@example.com", true⟩
     (by decide)).1,
   ((userService_deactivate_spec _ "u1").2 ⟨"u1", "ann@example.com", true⟩
     (by decide)).2.1,
   ((userService_deactivate_spec _ "u1").2 ⟨"u1", "ann@example.com", true⟩
     (by decide)).2.2 "u2" (by decide)⟩
